import Mathlib

/-!
Verification development for the mach-6 CSS selector-matching engine.

The repository runs several progressively-optimized CSS selector matching
strategies (naive scan, indexed selector map, selector map + ancestor bloom
filter, style sharing) over parsed HTML documents, and checks that every
optimized strategy produces, after canonicalization, the same per-element
selector-text sets as the naive baseline.

This file shallowly embeds the data model (`structs.rs`), the traversal
drivers (`lib.rs`), and the html-file discovery (`parse.rs`), and proves or
refutes the specification claims about them.  External collaborators (the
selector engine of the `selectors`/`style` crates, the bloom filter, the
style-sharing heuristic) are modelled as function parameters, exactly as the
spec designates them external.
-/

/-- A CSS selector.  The source type `selectors::parser::Selector` is external
to the repository; all the repository uses of it are (a) equality/cloning and
(b) `to_css_string`, so it is modelled by its serialized css text. -/
structure Selector where
  text : String
deriving DecidableEq

/-- `Selector::to_css_string`. -/
def Selector.toCssString (s : Selector) : String := s.text

/-- Canonical selector-text set of a selector collection
(`HashSet<String>` built with `Selector::to_css_string` in `structs.rs`). -/
def selTexts (l : List Selector) : Finset String :=
  (l.map Selector.toCssString).toFinset

/-- Data carried by one DOM element node: the scraper `NodeId` (distinct per
tree node by construction of the arena), the tag name and the attribute list
in document order. -/
structure ElemData where
  nodeId : Nat
  tag : String
  attrs : List (String × String)
deriving DecidableEq

/-- A node of the parsed document tree (`scraper::Node`, restricted to the
variants the traversals distinguish: elements recurse, text and comments are
skipped by `child_elements()`). -/
inductive DomNode : Type where
  | element : ElemData → List DomNode → DomNode
  | textNode : String → DomNode
  | comment : String → DomNode

/-- Whether a node is an element (the `child_elements()` filter). -/
def DomNode.isElem : DomNode → Bool
  | .element _ _ => true
  | _ => false

/-- `child_elements()`: the element children of a node's child list,
non-element nodes (text, comments) skipped. -/
def childElements (cs : List DomNode) : List DomNode :=
  cs.filter DomNode.isElem

/-- 64-bit truncation of the identity hash (`DefaultHasher::finish` yields a
`u64`).  The hash function itself is a parameter `h`. -/
def elementId (h : Nat → Nat) (nodeId : Nat) : Nat :=
  h nodeId % 2 ^ 64

/-- `get_start_tag` in `structs.rs` (`Element::from`): `<tag k="v" ...>`. -/
def startTag (d : ElemData) : String :=
  "<" ++ d.tag ++
    String.join (d.attrs.map (fun kv => " " ++ kv.1 ++ "=\"" ++ kv.2 ++ "\"")) ++
    ">"

/-- `structs.rs` `Element`: the 64-bit identity key plus the start-tag html
text kept for reporting. -/
structure Element where
  id : Nat
  html : String
deriving DecidableEq

/-- `Element::from(ElementRef)`: hash the node id into the 64-bit identity
key, render the start tag. -/
def Element.fromRef (h : Nat → Nat) (d : ElemData) : Element :=
  { id := elementId h d.nodeId, html := startTag d }

/-- `impl PartialEq for Element`: equality on `id` only. -/
def elementBeq (a b : Element) : Bool := a.id == b.id

/-- `impl PartialOrd for Element`: `self.id.partial_cmp(&other.id)`, total on
`u64`, hence always `some`. -/
def elementPartialCmp (a b : Element) : Option Ordering :=
  some (compare a.id b.id)

/-- Lexicographic comparison of character lists by code point, modelling
Rust's byte-lexicographic `Ord` for `String` (identical on the ASCII html
strings produced by `get_start_tag`). -/
def charListCompare : List Char → List Char → Ordering
  | [], [] => .eq
  | [], _ :: _ => .lt
  | _ :: _, [] => .gt
  | a :: as, b :: bs =>
      if a.toNat < b.toNat then .lt
      else if b.toNat < a.toNat then .gt
      else charListCompare as bs

/-- Rust's `Ord` for `String`, on the character list of the string. -/
def strCompare (a b : String) : Ordering :=
  charListCompare a.toList b.toList

/-- `#[derive(Ord)]` on `Element`: fields compared in declaration order, so
`id` first and `html` as tie-break. -/
def elementCmp (a b : Element) : Ordering :=
  (compare a.id b.id).then (strCompare a.html b.html)

/-- `impl Hash for Element`: only `self.id` is fed to the hasher state `f`. -/
def elementHash (f : Nat → Nat) (a : Element) : Nat := f a.id

/-- `structs.rs` `OwnedSelectorsOrSharedStyles`: a direct match list, or a
back-reference to the identity key of the element whose styles are shared. -/
inductive OwnedSelectorsOrSharedStyles : Type where
  | selectors : List Selector → OwnedSelectorsOrSharedStyles
  | sharedWithElement : Nat → OwnedSelectorsOrSharedStyles
deriving DecidableEq

/-- `structs.rs` `OwnedElementMatches`. -/
structure OwnedElementMatches where
  element : Element
  selectors : OwnedSelectorsOrSharedStyles
deriving DecidableEq

/- The preorder enumeration of the element data reachable by child-element
iteration from a node: the node itself (if an element) before its children,
children left-to-right, non-element nodes contributing nothing.  This is the
reference enumeration the traversal outputs are compared against. -/
mutual
def preorderElems : DomNode → List ElemData
  | .element d cs => d :: preorderElemsList cs
  | .textNode _ => []
  | .comment _ => []

def preorderElemsList : List DomNode → List ElemData
  | [] => []
  | c :: rest => preorderElems c ++ preorderElemsList rest
end

section Traversals

variable (h : Nat → Nat) (sel : List Selector) (m : Selector → Nat → Bool)

/- `match_selectors` (`lib.rs`): recursive preorder traversal; at each
element, filter the full selector list with the external
`matching::matches_selector` oracle `m`, push the entry, then recurse into the
child elements.  Non-element children contribute nothing, exactly as
`child_elements()` skips them. -/
mutual
def matchSelectorsGo : DomNode → List OwnedElementMatches
  | .element d cs =>
      { element := Element.fromRef h d,
        selectors := .selectors (sel.filter (fun s => m s d.nodeId)) }
        :: matchSelectorsList cs
  | .textNode _ => []
  | .comment _ => []

def matchSelectorsList : List DomNode → List OwnedElementMatches
  | [] => []
  | c :: rest => matchSelectorsGo c ++ matchSelectorsList rest
end

/-- `match_selectors` run from the document root element. -/
def matchSelectors (doc : DomNode) : List OwnedElementMatches :=
  matchSelectorsGo h sel m doc

end Traversals


/- `match_selectors_with_selector_map` (`lib.rs`): same preorder walk, but the
matching selectors come from the external indexed rule map
(`SelectorMap::get_all_matching_rules`), modelled by the query oracle
`qm : nodeId → matched selectors`. -/
mutual
def selectorMapGo (h : Nat → Nat) (qm : Nat → List Selector) :
    DomNode → List OwnedElementMatches
  | .element d cs =>
      { element := Element.fromRef h d,
        selectors := .selectors (qm d.nodeId) } :: selectorMapList h qm cs
  | .textNode _ => []
  | .comment _ => []

def selectorMapList (h : Nat → Nat) (qm : Nat → List Selector) :
    List DomNode → List OwnedElementMatches
  | [] => []
  | c :: rest => selectorMapGo h qm c ++ selectorMapList h qm rest
end

/-- `match_selectors_with_selector_map` run from the document root element. -/
def matchSelectorsWithSelectorMap (h : Nat → Nat) (qm : Nat → List Selector)
    (doc : DomNode) : List OwnedElementMatches :=
  selectorMapGo h qm doc


/- The adapter's `traversal_parent` (`scraper/src/element_ref/selector_map.rs`)
is modelled as a function `tp : nodeId → Option nodeId` reported by the
adapter, so that adapter bugs (a child whose reported parent differs from the
node that supplied it) are expressible.  `tpOkB` decides whether `tp` is
consistent with the actual tree structure below a node. -/
mutual
def tpOkB (tp : Nat → Option Nat) : DomNode → Bool
  | .element d cs => tpOkChildren tp d.nodeId cs
  | .textNode _ => true
  | .comment _ => true

def tpOkChildren (tp : Nat → Option Nat) (pid : Nat) : List DomNode → Bool
  | [] => true
  | .element cd ccs :: rest =>
      (tp cd.nodeId == some pid) && tpOkB tp (.element cd ccs)
        && tpOkChildren tp pid rest
  | _ :: rest => tpOkChildren tp pid rest
end

/-- The panic message of the parent consistency check in
`match_selectors_with_bloom_filter` / `match_selectors_with_style_sharing`. -/
def parentPanicMsg : String := "child's traversal_parent was not equal to me!"

/-- The panic of `child.traversal_parent().unwrap()` when the adapter reports
no parent at all. -/
def unwrapPanicMsg : String := "called Option::unwrap on a None value"

/- `match_selectors_with_bloom_filter` (`lib.rs`): preorder walk threading the
element depth and the ancestor bloom filter.  The bloom filter is external
state consumed only by the rule-map query, so the query oracle
`qb : nodeId → matched selectors` absorbs it (within one fixed document the
filter content at an element is a function of that element's ancestor chain).
Before recursing into each child element the code asserts
`child.traversal_parent().unwrap() == element` and panics otherwise; panics
are modelled as `Except.error`. -/
mutual
def bloomGo (h : Nat → Nat) (qb : Nat → List Selector) (tp : Nat → Option Nat) :
    DomNode → Nat → Except String (List OwnedElementMatches)
  | .element d cs, depth =>
      match bloomChildren h qb tp d.nodeId cs (depth + 1) with
      | .error e => .error e
      | .ok rest =>
          .ok ({ element := Element.fromRef h d,
                 selectors := .selectors (qb d.nodeId) } :: rest)
  | .textNode _, _ => .ok []
  | .comment _, _ => .ok []

def bloomChildren (h : Nat → Nat) (qb : Nat → List Selector)
    (tp : Nat → Option Nat) (pid : Nat) :
    List DomNode → Nat → Except String (List OwnedElementMatches)
  | [], _ => .ok []
  | .element cd ccs :: rest, depth =>
      match tp cd.nodeId with
      | none => .error unwrapPanicMsg
      | some p =>
          if p = pid then
            match bloomGo h qb tp (.element cd ccs) depth with
            | .error e => .error e
            | .ok r1 =>
                match bloomChildren h qb tp pid rest depth with
                | .error e => .error e
                | .ok r2 => .ok (r1 ++ r2)
          else .error parentPanicMsg
  | .textNode _ :: rest, depth => bloomChildren h qb tp pid rest depth
  | .comment _ :: rest, depth => bloomChildren h qb tp pid rest depth
end

/-- `match_selectors_with_bloom_filter` run from the document root element at
depth 0. -/
def matchSelectorsWithBloomFilter (h : Nat → Nat) (qb : Nat → List Selector)
    (tp : Nat → Option Nat) (doc : DomNode) :
    Except String (List OwnedElementMatches) :=
  bloomGo h qb tp doc 0


/-- Modelled from the spec: the statistics aggregate (the current crate root
`lib.rs` exporting `do_website` and the instrumented `Statistics` is missing
from the snapshot; only its callers — `tests/websites_suite.rs`,
`benches/all_websites.rs`, `main.rs` — and the result declarations in
`structs.rs` are present).  Fields follow spec section 3 and the bench report:
count-based counters plus an optional wall-clock duration bucket; a field a
strategy does not instrument stays `none`.  The duration is in abstract clock
ticks. -/
structure Statistics where
  sharing_instances : Option Nat
  selector_map_hits : Option Nat
  fast_rejects : Option Nat
  slow_rejects : Option Nat
  time_spent_slow_rejecting : Option Nat
deriving DecidableEq

/-- The operation `statistics_dont_change` performs before comparing two runs:
null out the wall-clock-duration field, keep every count-based field. -/
def Statistics.dropTimes (s : Statistics) : Statistics :=
  { s with time_spent_slow_rejecting := none }

/-- Modelled from the spec: the running state of one style-sharing traversal —
the sharing cache (a list of node ids of previously matched candidate
elements), the count-based counters, the index into the abstract clock stream,
and the accumulated duration ticks. -/
structure ShareState where
  cache : List Nat
  sharingInstances : Nat
  selectorMapHits : Nat
  clockIdx : Nat
  timeSlowReject : Nat
deriving DecidableEq

/-- Modelled from the spec (4.2, 4.3 step 3, style-sharing row): per-element
work of the style-sharing strategy.  `ts` is the external
`share_style_if_possible` oracle (given the element and the current cache,
maybe an earlier element to share with); `ic` is the external
`insert_if_possible` (which may refuse); `qb` is the bloom-filter rule-map
query used on a cache miss; `clock` is the abstract wall clock read around the
timed matching phase.  On a hit: record `SharedWith(identity key)` and do NOT
query the selector map.  On a miss: perform the full query (timed), record the
direct result, then offer the element to the cache. -/
def shareStep (h : Nat → Nat) (ts : Nat → List Nat → Option Nat)
    (ic : List Nat → Nat → List Nat) (qb : Nat → List Selector)
    (clock : Nat → Nat) (st : ShareState) (d : ElemData) :
    OwnedElementMatches × ShareState :=
  match ts d.nodeId st.cache with
  | some o =>
      ({ element := Element.fromRef h d,
         selectors := .sharedWithElement (elementId h o) },
       { st with sharingInstances := st.sharingInstances + 1 })
  | none =>
      let t0 := clock st.clockIdx
      let t1 := clock (st.clockIdx + 1)
      let res := qb d.nodeId
      ({ element := Element.fromRef h d, selectors := .selectors res },
       { cache := ic st.cache d.nodeId,
         sharingInstances := st.sharingInstances,
         selectorMapHits := st.selectorMapHits + res.length,
         clockIdx := st.clockIdx + 2,
         timeSlowReject := st.timeSlowReject + (t1 - t0) })

/- Modelled from the spec: the style-sharing preorder traversal (spec 4.3)
threading the sharing cache and statistics through the walk, with the same
parent consistency check as the bloom-filter traversal (spec 4.3 step 1; the
stale `match_selectors_with_style_sharing` in the snapshot's `lib.rs` carries
the identical check). -/
mutual
def shareGo (h : Nat → Nat) (ts : Nat → List Nat → Option Nat)
    (ic : List Nat → Nat → List Nat) (qb : Nat → List Selector)
    (tp : Nat → Option Nat) (clock : Nat → Nat) :
    DomNode → Nat → ShareState →
      Except String (List OwnedElementMatches × ShareState)
  | .element d cs, depth, st =>
      match shareStep h ts ic qb clock st d with
      | (em, st1) =>
          match shareChildren h ts ic qb tp clock d.nodeId cs (depth + 1) st1 with
          | .error e => .error e
          | .ok (rest, st2) => .ok (em :: rest, st2)
  | .textNode _, _, st => .ok ([], st)
  | .comment _, _, st => .ok ([], st)

def shareChildren (h : Nat → Nat) (ts : Nat → List Nat → Option Nat)
    (ic : List Nat → Nat → List Nat) (qb : Nat → List Selector)
    (tp : Nat → Option Nat) (clock : Nat → Nat) (pid : Nat) :
    List DomNode → Nat → ShareState →
      Except String (List OwnedElementMatches × ShareState)
  | [], _, st => .ok ([], st)
  | .element cd ccs :: rest, depth, st =>
      match tp cd.nodeId with
      | none => .error unwrapPanicMsg
      | some p =>
          if p = pid then
            match shareGo h ts ic qb tp clock (.element cd ccs) depth st with
            | .error e => .error e
            | .ok (r1, st1) =>
                match shareChildren h ts ic qb tp clock pid rest depth st1 with
                | .error e => .error e
                | .ok (r2, st2) => .ok (r1 ++ r2, st2)
          else .error parentPanicMsg
  | .textNode _ :: rest, depth, st => shareChildren h ts ic qb tp clock pid rest depth st
  | .comment _ :: rest, depth, st => shareChildren h ts ic qb tp clock pid rest depth st
end

/-- The initial style-sharing state: empty cache, zeroed counters. -/
def ShareState.init : ShareState :=
  { cache := [], sharingInstances := 0, selectorMapHits := 0,
    clockIdx := 0, timeSlowReject := 0 }

/-- Modelled from the spec: `match_selectors_with_style_sharing` run from the
document root, assembling the final `Statistics` (counters instrumented by
this strategy are `some`, the rest stay `none`). -/
def matchSelectorsWithStyleSharing (h : Nat → Nat)
    (ts : Nat → List Nat → Option Nat) (ic : List Nat → Nat → List Nat)
    (qb : Nat → List Selector) (tp : Nat → Option Nat) (clock : Nat → Nat)
    (doc : DomNode) :
    Except String (List OwnedElementMatches × Statistics) :=
  match shareGo h ts ic qb tp clock doc 0 ShareState.init with
  | .error e => .error e
  | .ok (ms, st) =>
      .ok (ms, { sharing_instances := some st.sharingInstances,
                 selector_map_hits := some st.selectorMapHits,
                 fast_rejects := none,
                 slow_rejects := none,
                 time_spent_slow_rejecting := some st.timeSlowReject })

/-- The flat left-to-right scan over the preorder element list performing the
spec's per-element style-sharing protocol.  The state-threading tree traversal
`shareGo` is proved equal to this scan. -/
def shareScan (h : Nat → Nat) (ts : Nat → List Nat → Option Nat)
    (ic : List Nat → Nat → List Nat) (qb : Nat → List Selector)
    (clock : Nat → Nat) :
    List ElemData → ShareState → List OwnedElementMatches × ShareState
  | [], st => ([], st)
  | d :: ds, st =>
      match shareStep h ts ic qb clock st d with
      | (em, st1) =>
          match shareScan h ts ic qb clock ds st1 with
          | (rest, st2) => (em :: rest, st2)


/-- `structs.rs` `SetSelectorsOrSharedStyles`: selector collections rendered
to css-text sets (`HashSet<String>` is modelled as `Finset String`),
back-references kept as identity keys. -/
inductive SetSelectorsOrSharedStyles : Type where
  | selectors : Finset String → SetSelectorsOrSharedStyles
  | sharedWithElement : Nat → SetSelectorsOrSharedStyles
deriving DecidableEq

/-- `structs.rs` `SetElementMatches`. -/
structure SetElementMatches where
  element : Element
  selectors : SetSelectorsOrSharedStyles
deriving DecidableEq

/-- `From<OwnedSelectorsOrSharedStyles> for SetSelectorsOrSharedStyles`:
serialize each selector with `to_css_string` and collect into a set. -/
def setOutcome : OwnedSelectorsOrSharedStyles → SetSelectorsOrSharedStyles
  | .selectors l => .selectors (selTexts l)
  | .sharedWithElement k => .sharedWithElement k

/-- `structs.rs` `SetDocumentMatches`: the per-document map from identity key
to `SetElementMatches`.  The `HashMap` is modelled as an association list in
traversal order; under the injective-key invariant the two agree on every
lookup. -/
structure SetDocumentMatches where
  entries : List (Nat × SetElementMatches)
deriving DecidableEq

/-- `From<OwnedDocumentMatches> for SetDocumentMatches`: key each entry by its
element's identity key. -/
def SetDocumentMatches.fromOwned (l : List OwnedElementMatches) :
    SetDocumentMatches :=
  ⟨l.map (fun em => (em.element.id,
      { element := em.element, selectors := setOutcome em.selectors }))⟩

/-- `HashMap::get` on the association-list model. -/
def SetDocumentMatches.get? (s : SetDocumentMatches) (k : Nat) :
    Option SetElementMatches :=
  (s.entries.find? (fun p => p.1 == k)).map (·.2)

/-- `SetDocumentMatches::find_selectors`: look the key up (the source
`unwrap`s, so a missing key is `none` here) and follow `SharedWithElement`
references until a selector set is reached.  The source recursion has no
termination guard; `fuel` bounds the number of reference hops followed, so
that the claims about chain length are expressible. -/
def SetDocumentMatches.findSelectors (s : SetDocumentMatches) :
    Nat → Nat → Option (Finset String)
  | fuel, k =>
    match s.get? k with
    | none => none
    | some em =>
        match em.selectors with
        | .selectors set => some set
        | .sharedWithElement j =>
            match fuel with
            | 0 => none
            | fuel' + 1 => s.findSelectors fuel' j

/-- A directory entry as `get_main_html` observes it: the final path
component and whether the path is a regular file (`path.is_file()`; a
directory named `x.html` has `isFile = false`). -/
structure DirEntry where
  name : String
  isFile : Bool
deriving DecidableEq

/-- `parse.rs` `HtmlFile` (the newtype over the path). -/
structure HtmlFile where
  path : String
deriving DecidableEq

/-- `result.rs` `ErrorKind`, restricted to the variant `get_main_html`
produces itself (io errors are propagated from the outside world and are not
modelled). -/
inductive MainErrorKind : Type where
  | MultipleHtmlFiles : List HtmlFile → MainErrorKind
deriving DecidableEq

/-- Rust `Path::extension` on a final path component: the part after the last
`.`; `none` when there is no `.` or when the only `.` is the leading one of a
hidden file. -/
def rustExtension (name : String) : Option String :=
  let rcs := name.toList.reverse
  match rcs.dropWhile (fun c => c ≠ '.') with
  | [] => none
  | _ :: [] => none
  | _ :: _ :: _ => some (String.mk ((rcs.takeWhile (fun c => c ≠ '.')).reverse))

/-- `get_main_html` (`parse.rs`): keep the entries that are regular files with
extension `html`; zero such files is `Ok(None)` (website skipped with a
warning), exactly one is `Ok(Some(file))` (`found.pop().unwrap()` takes the
single element), more than one is the `MultipleHtmlFiles` error carrying every
found file. -/
def getMainHtml (entries : List DirEntry) :
    Except MainErrorKind (Option HtmlFile) :=
  let found : List HtmlFile := entries.filterMap (fun e =>
    if e.isFile && (rustExtension e.name == some "html")
    then some ⟨e.name⟩ else none)
  if found.length = 0 then .ok none
  else if found.length = 1 then .ok found.getLast?
  else .error (.MultipleHtmlFiles found)

/-- The claim's reading of the same condition: the list of html files in a
directory, as a filter over the entries. -/
def htmlFilesIn (entries : List DirEntry) : List HtmlFile :=
  (entries.filter
      (fun e => e.isFile && (rustExtension e.name == some "html"))).map
    (fun e => ⟨e.name⟩)

/-- Whether an `Except`-valued traversal ran to completion (`.ok`) instead of
aborting with a panic (`.error`). -/
def exceptIsOk {ε α : Type} : Except ε α → Bool
  | .ok _ => true
  | .error _ => false

/-- Whether an entry records a `SharedWith` outcome. -/
def isSharedOutcome (em : OwnedElementMatches) : Bool :=
  match em.selectors with
  | .sharedWithElement _ => true
  | .selectors _ => false

/-- Whether an entry records a direct selector collection. -/
def isDirectOutcome (em : OwnedElementMatches) : Bool :=
  match em.selectors with
  | .selectors _ => true
  | .sharedWithElement _ => false

/-- Style-sharing states that agree on everything the abstract wall clock
cannot influence: the cache and the count-based counters. -/
def stEquiv (s1 s2 : ShareState) : Prop :=
  s1.cache = s2.cache ∧ s1.sharingInstances = s2.sharingInstances ∧
    s1.selectorMapHits = s2.selectorMapHits

/-- Traversal results that agree up to clock-influenced state: same panic, or
same matches with `stEquiv` states. -/
def shareResEquiv :
    Except String (List OwnedElementMatches × ShareState) →
    Except String (List OwnedElementMatches × ShareState) → Prop
  | .error e1, .error e2 => e1 = e2
  | .ok p1, .ok p2 => p1.1 = p2.1 ∧ stEquiv p1.2 p2.2
  | .error _, .ok _ => False
  | .ok _, .error _ => False

/-- The sharing-cache invariant: every node id in the cache is backed by an
already-recorded entry holding that element's direct match result. -/
def cacheSupported (h : Nat → Nat) (qb : Nat → List Selector)
    (done : List OwnedElementMatches) (cache : List Nat) : Prop :=
  ∀ o ∈ cache, ∃ em ∈ done,
    em.element.id = elementId h o ∧ em.selectors = .selectors (qb o)

/-- Concrete two-element document used by counterexamples and witnesses:
`<html>` with a text child and one `<body>` element child. -/
def docTwo : DomNode :=
  .element ⟨1, "html", []⟩ [.textNode "hi", .element ⟨2, "body", []⟩ []]

/-- Concrete three-element document: a root with two `<div>` children. -/
def docThree : DomNode :=
  .element ⟨1, "html", []⟩
    [.element ⟨2, "div", []⟩ [], .comment "x", .element ⟨3, "div", []⟩ []]

/-- The structurally correct `traversal_parent` function for the concrete
documents above. -/
def tpGood : Nat → Option Nat
  | 2 => some 1
  | 3 => some 1
  | _ => none

mutual
theorem matchSelectorsGo_eq (h : Nat → Nat) (sel : List Selector)
    (m : Selector → Nat → Bool) (n : DomNode) :
    matchSelectorsGo h sel m n
      = (preorderElems n).map (fun d =>
          { element := Element.fromRef h d,
            selectors := .selectors (sel.filter (fun s => m s d.nodeId)) }) := by
  cases n with
  | element d cs =>
      simp [matchSelectorsGo, preorderElems, matchSelectorsList_eq h sel m cs]
  | textNode s => simp [matchSelectorsGo, preorderElems]
  | comment s => simp [matchSelectorsGo, preorderElems]

theorem matchSelectorsList_eq (h : Nat → Nat) (sel : List Selector)
    (m : Selector → Nat → Bool) (l : List DomNode) :
    matchSelectorsList h sel m l
      = (preorderElemsList l).map (fun d =>
          { element := Element.fromRef h d,
            selectors := .selectors (sel.filter (fun s => m s d.nodeId)) }) := by
  cases l with
  | nil => simp [matchSelectorsList, preorderElemsList]
  | cons c rest =>
      simp [matchSelectorsList, preorderElemsList,
        matchSelectorsGo_eq h sel m c, matchSelectorsList_eq h sel m rest]
end

mutual
theorem selectorMapGo_eq (h : Nat → Nat) (qm : Nat → List Selector)
    (n : DomNode) :
    selectorMapGo h qm n
      = (preorderElems n).map (fun d =>
          { element := Element.fromRef h d,
            selectors := .selectors (qm d.nodeId) }) := by
  cases n with
  | element d cs => simp [selectorMapGo, preorderElems, selectorMapList_eq h qm cs]
  | textNode s => simp [selectorMapGo, preorderElems]
  | comment s => simp [selectorMapGo, preorderElems]

theorem selectorMapList_eq (h : Nat → Nat) (qm : Nat → List Selector)
    (l : List DomNode) :
    selectorMapList h qm l
      = (preorderElemsList l).map (fun d =>
          { element := Element.fromRef h d,
            selectors := .selectors (qm d.nodeId) }) := by
  cases l with
  | nil => simp [selectorMapList, preorderElemsList]
  | cons c rest =>
      simp [selectorMapList, preorderElemsList,
        selectorMapGo_eq h qm c, selectorMapList_eq h qm rest]
end

mutual
theorem bloomGo_eq (h : Nat → Nat) (qb : Nat → List Selector)
    (tp : Nat → Option Nat) (n : DomNode) (depth : Nat)
    (hok : tpOkB tp n = true) :
    bloomGo h qb tp n depth
      = .ok ((preorderElems n).map (fun d =>
          { element := Element.fromRef h d,
            selectors := .selectors (qb d.nodeId) })) := by
  cases n with
  | element d cs =>
      have hc : tpOkChildren tp d.nodeId cs = true := by
        simpa [tpOkB] using hok
      simp [bloomGo, preorderElems, bloomChildren_eq h qb tp d.nodeId cs (depth + 1) hc]
  | textNode s => simp [bloomGo, preorderElems]
  | comment s => simp [bloomGo, preorderElems]

theorem bloomChildren_eq (h : Nat → Nat) (qb : Nat → List Selector)
    (tp : Nat → Option Nat) (pid : Nat) (l : List DomNode) (depth : Nat)
    (hok : tpOkChildren tp pid l = true) :
    bloomChildren h qb tp pid l depth
      = .ok ((preorderElemsList l).map (fun d =>
          { element := Element.fromRef h d,
            selectors := .selectors (qb d.nodeId) })) := by
  cases l with
  | nil => simp [bloomChildren, preorderElemsList]
  | cons c rest =>
      cases c with
      | element cd ccs =>
          have h1 : tp cd.nodeId = some pid := by
            have := hok
            simp [tpOkChildren, Bool.and_eq_true] at this
            exact this.1.1
          have h2 : tpOkB tp (.element cd ccs) = true := by
            have := hok
            simp [tpOkChildren, Bool.and_eq_true] at this
            exact this.1.2
          have h3 : tpOkChildren tp pid rest = true := by
            have := hok
            simp [tpOkChildren, Bool.and_eq_true] at this
            exact this.2
          simp [bloomChildren, preorderElemsList, h1,
            bloomGo_eq h qb tp (.element cd ccs) depth h2,
            bloomChildren_eq h qb tp pid rest depth h3, preorderElems]
      | textNode s =>
          have h3 : tpOkChildren tp pid rest = true := by
            simpa [tpOkChildren] using hok
          simp [bloomChildren, preorderElemsList, preorderElems,
            bloomChildren_eq h qb tp pid rest depth h3]
      | comment s =>
          have h3 : tpOkChildren tp pid rest = true := by
            simpa [tpOkChildren] using hok
          simp [bloomChildren, preorderElemsList, preorderElems,
            bloomChildren_eq h qb tp pid rest depth h3]
end

theorem shareScan_append (h : Nat → Nat) (ts : Nat → List Nat → Option Nat)
    (ic : List Nat → Nat → List Nat) (qb : Nat → List Selector)
    (clock : Nat → Nat) (l1 l2 : List ElemData) (st : ShareState) :
    shareScan h ts ic qb clock (l1 ++ l2) st
      = ((shareScan h ts ic qb clock l1 st).1
            ++ (shareScan h ts ic qb clock l2 (shareScan h ts ic qb clock l1 st).2).1,
         (shareScan h ts ic qb clock l2 (shareScan h ts ic qb clock l1 st).2).2) := by
  induction l1 generalizing st with
  | nil => simp [shareScan]
  | cons d ds ih =>
      simp only [List.cons_append, shareScan]
      cases hstep : shareStep h ts ic qb clock st d with
      | mk em st1 =>
          simp [ih st1]

mutual
theorem shareGo_eq (h : Nat → Nat) (ts : Nat → List Nat → Option Nat)
    (ic : List Nat → Nat → List Nat) (qb : Nat → List Selector)
    (tp : Nat → Option Nat) (clock : Nat → Nat) (n : DomNode) (depth : Nat)
    (st : ShareState) (hok : tpOkB tp n = true) :
    shareGo h ts ic qb tp clock n depth st
      = .ok (shareScan h ts ic qb clock (preorderElems n) st) := by
  cases n with
  | element d cs =>
      have hc : tpOkChildren tp d.nodeId cs = true := by
        simpa [tpOkB] using hok
      simp only [shareGo, preorderElems, shareScan]
      cases hstep : shareStep h ts ic qb clock st d with
      | mk em st1 =>
          simp only [shareChildren_eq h ts ic qb tp clock d.nodeId cs (depth + 1) st1 hc]
  | textNode s => simp [shareGo, preorderElems, shareScan]
  | comment s => simp [shareGo, preorderElems, shareScan]

theorem shareChildren_eq (h : Nat → Nat) (ts : Nat → List Nat → Option Nat)
    (ic : List Nat → Nat → List Nat) (qb : Nat → List Selector)
    (tp : Nat → Option Nat) (clock : Nat → Nat) (pid : Nat)
    (l : List DomNode) (depth : Nat) (st : ShareState)
    (hok : tpOkChildren tp pid l = true) :
    shareChildren h ts ic qb tp clock pid l depth st
      = .ok (shareScan h ts ic qb clock (preorderElemsList l) st) := by
  cases l with
  | nil => simp [shareChildren, preorderElemsList, shareScan]
  | cons c rest =>
      cases c with
      | element cd ccs =>
          have h1 : tp cd.nodeId = some pid := by
            have := hok
            simp [tpOkChildren, Bool.and_eq_true] at this
            exact this.1.1
          have h2 : tpOkB tp (.element cd ccs) = true := by
            have := hok
            simp [tpOkChildren, Bool.and_eq_true] at this
            exact this.1.2
          have h3 : tpOkChildren tp pid rest = true := by
            have := hok
            simp [tpOkChildren, Bool.and_eq_true] at this
            exact this.2
          have h4 := shareChildren_eq h ts ic qb tp clock pid rest depth
            (shareScan h ts ic qb clock (preorderElems (.element cd ccs)) st).2 h3
          simp [shareChildren, preorderElemsList, h1,
            shareGo_eq h ts ic qb tp clock (.element cd ccs) depth st h2,
            h4, shareScan_append]
      | textNode s =>
          have h3 : tpOkChildren tp pid rest = true := by
            simpa [tpOkChildren] using hok
          simp [shareChildren, preorderElemsList, preorderElems,
            shareChildren_eq h ts ic qb tp clock pid rest depth st h3]
      | comment s =>
          have h3 : tpOkChildren tp pid rest = true := by
            simpa [tpOkChildren] using hok
          simp [shareChildren, preorderElemsList, preorderElems,
            shareChildren_eq h ts ic qb tp clock pid rest depth st h3]
end

/-- Claim C9 counterexample: two `Element` values with equal `id` but
different `html` are equal under `PartialEq` (ids equal), yet the derived
total `Ord::cmp` returns `Less`, not `Equal` — so the comparison order does
NOT depend only on the 64-bit id field, refuting the claim as stated. -/
theorem c9_counterexample :
    (Element.mk 1 "<div>").id = (Element.mk 1 "<span>").id ∧
    elementBeq (Element.mk 1 "<div>") (Element.mk 1 "<span>") = true ∧
    elementCmp (Element.mk 1 "<div>") (Element.mk 1 "<span>") = Ordering.lt := by
  refine ⟨rfl, rfl, ?_⟩
  decide

/-- Claim C9 (amended): `Element` equality and hashing depend only on the
64-bit `id` field, and `partial_cmp` orders by `id`; the `derive`d total
`Ord::cmp` however compares `id` first and then falls back to comparing the
`html` string, so its order coincides with the id order only when the ids
differ. -/
theorem c9_element_ops (a b : Element) (f : Nat → Nat) :
    (elementBeq a b = true ↔ a.id = b.id) ∧
    elementPartialCmp a b = some (compare a.id b.id) ∧
    elementHash f a = f a.id ∧
    elementCmp a b = (compare a.id b.id).then (strCompare a.html b.html) := by
  refine ⟨?_, rfl, rfl, rfl⟩
  simp [elementBeq]

theorem filterMapHtml_eq (entries : List DirEntry) :
    entries.filterMap (fun e =>
        if e.isFile && (rustExtension e.name == some "html")
        then some (HtmlFile.mk e.name) else none)
      = htmlFilesIn entries := by
  rw [htmlFilesIn]
  induction entries with
  | nil => rfl
  | cons e rest ih =>
      simp only [List.filterMap_cons, List.filter_cons]
      cases hcond : (e.isFile && (rustExtension e.name == some "html")) with
      | false => simpa using ih
      | true => simpa using ih

/-- Claim C10: `get_main_html` returns `Ok(None)` when the directory holds no
regular file with extension `html` (a directory named like an html file does
not count, by `is_file`), `Ok(Some(file))` when it holds exactly one, and the
`MultipleHtmlFiles` error listing all found files when it holds more. -/
theorem c10_getMainHtml (entries : List DirEntry) :
    getMainHtml entries =
      match htmlFilesIn entries with
      | [] => .ok none
      | [f] => .ok (some f)
      | fs => .error (.MultipleHtmlFiles fs) := by
  have hf := filterMapHtml_eq entries
  simp only [getMainHtml, hf]
  cases hfs : htmlFilesIn entries with
  | nil => simp
  | cons f fs =>
      cases fs with
      | nil => simp
      | cons f2 fs2 => simp

/-- Claim C8 counterexample: with the selector `div` occurring twice in the
input selector list (as happens when the same selector text appears in two
stylesheets), the naive traversal records it twice in the element's direct
collection — the recorded collection is not duplicate-free. -/
theorem c8_counterexample :
    matchSelectors (fun n => n) [⟨"div"⟩, ⟨"div"⟩] (fun _ _ => true)
        (.element ⟨1, "div", []⟩ [])
      = [{ element := { id := 1, html := "<div>" },
           selectors := .selectors [⟨"div"⟩, ⟨"div"⟩] }] ∧
    ¬ List.Nodup [(⟨"div"⟩ : Selector), ⟨"div"⟩] :=
  ⟨by rfl, by decide⟩

/-- Claim C8 (amended): the direct collection recorded by the naive traversal
is the filter of the input selector list, so it is duplicate-free whenever
the input selector list is duplicate-free (deduplication in general only
happens later, at canonicalization into selector-text sets). -/
theorem c8_direct_nodup (h : Nat → Nat) (sel : List Selector)
    (m : Selector → Nat → Bool) (doc : DomNode) (hnd : sel.Nodup) :
    ∀ em ∈ matchSelectors h sel m doc, ∀ l,
      em.selectors = .selectors l → l.Nodup := by
  intro em hm l hl
  rw [matchSelectors, matchSelectorsGo_eq] at hm
  obtain ⟨d, _, rfl⟩ := List.mem_map.mp hm
  simp only [OwnedSelectorsOrSharedStyles.selectors.injEq] at hl
  subst hl
  exact hnd.filter _

/-- Witness for the amended C8 at a concrete duplicate-free selector list. -/
theorem c8_direct_nodup_witness :
    List.Nodup [(⟨"a"⟩ : Selector), ⟨"b"⟩] ∧
    (∀ em ∈ matchSelectors (fun n => n) [⟨"a"⟩, ⟨"b"⟩] (fun _ _ => true) docTwo,
      ∀ l, em.selectors = .selectors l → l.Nodup) :=
  ⟨by decide, c8_direct_nodup _ _ _ _ (by decide)⟩

mutual
theorem bloomGo_isOk (h : Nat → Nat) (qb : Nat → List Selector)
    (tp : Nat → Option Nat) (n : DomNode) (depth : Nat) :
    exceptIsOk (bloomGo h qb tp n depth) = tpOkB tp n := by
  cases n with
  | element d cs =>
      have hch := bloomChildren_isOk h qb tp d.nodeId cs (depth + 1)
      cases hc : bloomChildren h qb tp d.nodeId cs (depth + 1) with
      | error e =>
          rw [hc] at hch
          simp [bloomGo, hc, exceptIsOk, tpOkB, ← hch]
      | ok r =>
          rw [hc] at hch
          simp [bloomGo, hc, exceptIsOk, tpOkB, ← hch]
  | textNode s => simp [bloomGo, exceptIsOk, tpOkB]
  | comment s => simp [bloomGo, exceptIsOk, tpOkB]

theorem bloomChildren_isOk (h : Nat → Nat) (qb : Nat → List Selector)
    (tp : Nat → Option Nat) (pid : Nat) (l : List DomNode) (depth : Nat) :
    exceptIsOk (bloomChildren h qb tp pid l depth) = tpOkChildren tp pid l := by
  cases l with
  | nil => simp [bloomChildren, exceptIsOk, tpOkChildren]
  | cons c rest =>
      cases c with
      | element cd ccs =>
          cases htp : tp cd.nodeId with
          | none => simp [bloomChildren, htp, exceptIsOk, tpOkChildren]
          | some p =>
              by_cases hp : p = pid
              · subst hp
                have hgo := bloomGo_isOk h qb tp (.element cd ccs) depth
                have hch := bloomChildren_isOk h qb tp p rest depth
                cases hg : bloomGo h qb tp (.element cd ccs) depth with
                | error e =>
                    rw [hg] at hgo
                    simp [bloomChildren, htp, hg, exceptIsOk, tpOkChildren, ← hgo]
                | ok r1 =>
                    rw [hg] at hgo
                    cases hc : bloomChildren h qb tp p rest depth with
                    | error e =>
                        rw [hc] at hch
                        simp [bloomChildren, htp, hg, hc, exceptIsOk,
                          tpOkChildren, ← hgo, ← hch]
                    | ok r2 =>
                        rw [hc] at hch
                        simp [bloomChildren, htp, hg, hc, exceptIsOk,
                          tpOkChildren, ← hgo, ← hch]
              · simp [bloomChildren, htp, hp, exceptIsOk, tpOkChildren]
      | textNode s =>
          simp [bloomChildren, tpOkChildren,
            bloomChildren_isOk h qb tp pid rest depth]
      | comment s =>
          simp [bloomChildren, tpOkChildren,
            bloomChildren_isOk h qb tp pid rest depth]
end

mutual
theorem shareGo_isOk (h : Nat → Nat) (ts : Nat → List Nat → Option Nat)
    (ic : List Nat → Nat → List Nat) (qb : Nat → List Selector)
    (tp : Nat → Option Nat) (clock : Nat → Nat) (n : DomNode) (depth : Nat)
    (st : ShareState) :
    exceptIsOk (shareGo h ts ic qb tp clock n depth st) = tpOkB tp n := by
  cases n with
  | element d cs =>
      cases hstep : shareStep h ts ic qb clock st d with
      | mk em st1 =>
          have hch := shareChildren_isOk h ts ic qb tp clock d.nodeId cs
            (depth + 1) st1
          cases hc : shareChildren h ts ic qb tp clock d.nodeId cs (depth + 1) st1 with
          | error e =>
              rw [hc] at hch
              simp [shareGo, hstep, hc, exceptIsOk, tpOkB, ← hch]
          | ok r =>
              rw [hc] at hch
              simp [shareGo, hstep, hc, exceptIsOk, tpOkB, ← hch]
  | textNode s => simp [shareGo, exceptIsOk, tpOkB]
  | comment s => simp [shareGo, exceptIsOk, tpOkB]

theorem shareChildren_isOk (h : Nat → Nat) (ts : Nat → List Nat → Option Nat)
    (ic : List Nat → Nat → List Nat) (qb : Nat → List Selector)
    (tp : Nat → Option Nat) (clock : Nat → Nat) (pid : Nat)
    (l : List DomNode) (depth : Nat) (st : ShareState) :
    exceptIsOk (shareChildren h ts ic qb tp clock pid l depth st)
      = tpOkChildren tp pid l := by
  cases l with
  | nil => simp [shareChildren, exceptIsOk, tpOkChildren]
  | cons c rest =>
      cases c with
      | element cd ccs =>
          cases htp : tp cd.nodeId with
          | none => simp [shareChildren, htp, exceptIsOk, tpOkChildren]
          | some p =>
              by_cases hp : p = pid
              · subst hp
                have hgo := shareGo_isOk h ts ic qb tp clock (.element cd ccs)
                  depth st
                cases hg : shareGo h ts ic qb tp clock (.element cd ccs) depth st with
                | error e =>
                    rw [hg] at hgo
                    simp [shareChildren, htp, hg, exceptIsOk, tpOkChildren, ← hgo]
                | ok r1 =>
                    rw [hg] at hgo
                    have hch := shareChildren_isOk h ts ic qb tp clock p rest
                      depth r1.2
                    cases hc : shareChildren h ts ic qb tp clock p rest depth r1.2 with
                    | error e =>
                        rw [hc] at hch
                        simp [shareChildren, htp, hg, hc, exceptIsOk,
                          tpOkChildren, ← hgo, ← hch]
                    | ok r2 =>
                        rw [hc] at hch
                        simp [shareChildren, htp, hg, hc, exceptIsOk,
                          tpOkChildren, ← hgo, ← hch]
              · simp [shareChildren, htp, hp, exceptIsOk, tpOkChildren]
      | textNode s =>
          simp [shareChildren, tpOkChildren,
            shareChildren_isOk h ts ic qb tp clock pid rest depth st]
      | comment s =>
          simp [shareChildren, tpOkChildren,
            shareChildren_isOk h ts ic qb tp clock pid rest depth st]
end

/-- Claim C3 counterexample: with an adapter whose `traversal_parent` reports
no parent for any node (so every parent check would fail), the naive and
selector-map traversals still run to completion and return a full result —
they never consult `traversal_parent` at all — refuting the claim that every
strategy's traversal performs the check and aborts on a mismatch.  The
bloom-filter traversal, by contrast, does abort on the same input. -/
theorem c3_counterexample :
    tpOkB (fun _ => none) docTwo = false ∧
    matchSelectors (fun n => n) [] (fun _ _ => true) docTwo
      = [{ element := { id := 1, html := "<html>" }, selectors := .selectors [] },
         { element := { id := 2, html := "<body>" }, selectors := .selectors [] }] ∧
    matchSelectorsWithSelectorMap (fun n => n) (fun _ => [⟨"p"⟩]) docTwo
      = [{ element := { id := 1, html := "<html>" },
           selectors := .selectors [⟨"p"⟩] },
         { element := { id := 2, html := "<body>" },
           selectors := .selectors [⟨"p"⟩] }] ∧
    exceptIsOk (matchSelectorsWithBloomFilter (fun n => n) (fun _ => [])
        (fun _ => none) docTwo) = false :=
  ⟨by decide, by rfl, by rfl, by rfl⟩

/-- Claim C3 (amended): only the bloom-filter and style-sharing traversals
check, while entering an element, that each child element's
`traversal_parent` equals that element; they run to completion exactly when
the adapter-reported parents are consistent with the tree, and any mismatch
(or a missing parent, via `unwrap`) is a panic — modelled as `Except.error`,
with no recoverable-error path.  The naive and selector-map traversals never
perform the check. -/
theorem c3_parent_check (h : Nat → Nat) (qb : Nat → List Selector)
    (tp : Nat → Option Nat) (ts : Nat → List Nat → Option Nat)
    (ic : List Nat → Nat → List Nat) (clock : Nat → Nat) (n : DomNode)
    (depth : Nat) (st : ShareState) :
    exceptIsOk (bloomGo h qb tp n depth) = tpOkB tp n ∧
    exceptIsOk (shareGo h ts ic qb tp clock n depth st) = tpOkB tp n :=
  ⟨bloomGo_isOk h qb tp n depth, shareGo_isOk h ts ic qb tp clock n depth st⟩

theorem preorderElemsList_eq_filter (cs : List DomNode) :
    preorderElemsList cs = (childElements cs).flatMap preorderElems := by
  induction cs with
  | nil => simp [preorderElemsList, childElements]
  | cons c rest ih =>
      cases c with
      | element d ccs =>
          simp [preorderElemsList, childElements, List.filter_cons,
            DomNode.isElem, ih]
      | textNode s =>
          simp [preorderElemsList, preorderElems, childElements,
            List.filter_cons, DomNode.isElem, ih]
      | comment s =>
          simp [preorderElemsList, preorderElems, childElements,
            List.filter_cons, DomNode.isElem, ih]

theorem shareStep_element (h : Nat → Nat) (ts : Nat → List Nat → Option Nat)
    (ic : List Nat → Nat → List Nat) (qb : Nat → List Selector)
    (clock : Nat → Nat) (st : ShareState) (d : ElemData) :
    (shareStep h ts ic qb clock st d).1.element = Element.fromRef h d := by
  rw [shareStep]
  cases ts d.nodeId st.cache <;> rfl

theorem shareScan_elements (h : Nat → Nat) (ts : Nat → List Nat → Option Nat)
    (ic : List Nat → Nat → List Nat) (qb : Nat → List Selector)
    (clock : Nat → Nat) (ds : List ElemData) (st : ShareState) :
    ((shareScan h ts ic qb clock ds st).1).map (·.element)
      = ds.map (Element.fromRef h) := by
  induction ds generalizing st with
  | nil => simp [shareScan]
  | cons d rest ih =>
      simp only [shareScan]
      cases hstep : shareStep h ts ic qb clock st d with
      | mk em st1 =>
          have hem : em.element = Element.fromRef h d := by
            have := shareStep_element h ts ic qb clock st d
            rw [hstep] at this
            exact this
          cases hscan : shareScan h ts ic qb clock rest st1 with
          | mk r2 st2 =>
              have := ih st1
              rw [hscan] at this
              simp [hem, this]

/-- Claim C2: for every strategy, the produced result sequence has exactly one
entry per element reachable by child-element iteration from the root, in
preorder (each element before its children, children left-to-right in
document order, non-element nodes skipped): every traversal's entry list maps
onto the reference preorder enumeration `preorderElems`, whose own child step
is exactly child-element iteration (last conjunct).  The bloom-filter and
style-sharing traversals need the adapter's reported parents to be consistent,
otherwise they panic instead of producing a result. -/
theorem c2_coverage_preorder (h : Nat → Nat) (sel : List Selector)
    (m : Selector → Nat → Bool) (qm qb : Nat → List Selector)
    (tp : Nat → Option Nat) (ts : Nat → List Nat → Option Nat)
    (ic : List Nat → Nat → List Nat) (clock : Nat → Nat) (doc : DomNode)
    (hok : tpOkB tp doc = true) :
    (matchSelectors h sel m doc).map (·.element)
        = (preorderElems doc).map (Element.fromRef h) ∧
    (matchSelectorsWithSelectorMap h qm doc).map (·.element)
        = (preorderElems doc).map (Element.fromRef h) ∧
    Except.map (fun r => r.map (·.element))
        (matchSelectorsWithBloomFilter h qb tp doc)
        = .ok ((preorderElems doc).map (Element.fromRef h)) ∧
    Except.map (fun p => p.1.map (·.element))
        (matchSelectorsWithStyleSharing h ts ic qb tp clock doc)
        = .ok ((preorderElems doc).map (Element.fromRef h)) ∧
    (∀ cs, preorderElemsList cs = (childElements cs).flatMap preorderElems) := by
  refine ⟨?_, ?_, ?_, ?_, preorderElemsList_eq_filter⟩
  · rw [matchSelectors, matchSelectorsGo_eq, List.map_map]
    rfl
  · rw [matchSelectorsWithSelectorMap, selectorMapGo_eq, List.map_map]
    rfl
  · rw [matchSelectorsWithBloomFilter, bloomGo_eq h qb tp doc 0 hok]
    simp only [Except.map, List.map_map]
    rfl
  · rw [matchSelectorsWithStyleSharing,
      shareGo_eq h ts ic qb tp clock doc 0 ShareState.init hok]
    simp only [Except.map]
    rw [shareScan_elements]

/-- Witness for C2 at a concrete document with a consistent adapter. -/
theorem c2_coverage_preorder_witness :
    tpOkB tpGood docThree = true ∧
    Except.map (fun p => p.1.map (·.element))
        (matchSelectorsWithStyleSharing (fun n => n) (fun _ c => c.head?)
          (fun c e => e :: c) (fun _ => []) tpGood (fun _ => 0) docThree)
      = .ok ((preorderElems docThree).map (Element.fromRef (fun n => n))) :=
  ⟨by decide,
   (c2_coverage_preorder (fun n => n) [] (fun _ _ => true) (fun _ => [])
      (fun _ => []) tpGood (fun _ c => c.head?) (fun c e => e :: c)
      (fun _ => 0) docThree (by decide)).2.2.2.1⟩

theorem shareStep_some (h : Nat → Nat) (ts : Nat → List Nat → Option Nat)
    (ic : List Nat → Nat → List Nat) (qb : Nat → List Selector)
    (clock : Nat → Nat) (st : ShareState) (d : ElemData) (o : Nat)
    (hts : ts d.nodeId st.cache = some o) :
    shareStep h ts ic qb clock st d
      = ({ element := Element.fromRef h d,
           selectors := .sharedWithElement (elementId h o) },
         { st with sharingInstances := st.sharingInstances + 1 }) := by
  rw [shareStep, hts]

theorem shareStep_none (h : Nat → Nat) (ts : Nat → List Nat → Option Nat)
    (ic : List Nat → Nat → List Nat) (qb : Nat → List Selector)
    (clock : Nat → Nat) (st : ShareState) (d : ElemData)
    (hts : ts d.nodeId st.cache = none) :
    shareStep h ts ic qb clock st d
      = ({ element := Element.fromRef h d,
           selectors := .selectors (qb d.nodeId) },
         { cache := ic st.cache d.nodeId,
           sharingInstances := st.sharingInstances,
           selectorMapHits := st.selectorMapHits + (qb d.nodeId).length,
           clockIdx := st.clockIdx + 2,
           timeSlowReject := st.timeSlowReject
             + (clock (st.clockIdx + 1) - clock st.clockIdx) }) := by
  rw [shareStep, hts]

theorem shareScan_counts (h : Nat → Nat) (ts : Nat → List Nat → Option Nat)
    (ic : List Nat → Nat → List Nat) (qb : Nat → List Selector)
    (clock : Nat → Nat) (ds : List ElemData) (st : ShareState) :
    (shareScan h ts ic qb clock ds st).2.sharingInstances
        = st.sharingInstances
            + ((shareScan h ts ic qb clock ds st).1.countP isSharedOutcome) ∧
    (shareScan h ts ic qb clock ds st).2.clockIdx
        = st.clockIdx
            + 2 * ((shareScan h ts ic qb clock ds st).1.countP isDirectOutcome) := by
  induction ds generalizing st with
  | nil => simp [shareScan]
  | cons d rest ih =>
      cases hts : ts d.nodeId st.cache with
      | some o =>
          simp only [shareScan, shareStep_some h ts ic qb clock st d o hts]
          cases hscan : shareScan h ts ic qb clock rest
              { st with sharingInstances := st.sharingInstances + 1 } with
          | mk r2 st2 =>
              obtain ⟨ih1, ih2⟩ :=
                ih { st with sharingInstances := st.sharingInstances + 1 }
              rw [hscan] at ih1 ih2
              simp only [List.countP_cons, isSharedOutcome, isDirectOutcome] at ih1 ih2 ⊢
              simp at ih1 ih2 ⊢
              omega
      | none =>
          simp only [shareScan, shareStep_none h ts ic qb clock st d hts]
          cases hscan : shareScan h ts ic qb clock rest
              { cache := ic st.cache d.nodeId,
                sharingInstances := st.sharingInstances,
                selectorMapHits := st.selectorMapHits + (qb d.nodeId).length,
                clockIdx := st.clockIdx + 2,
                timeSlowReject := st.timeSlowReject
                  + (clock (st.clockIdx + 1) - clock st.clockIdx) } with
          | mk r2 st2 =>
              obtain ⟨ih1, ih2⟩ :=
                ih { cache := ic st.cache d.nodeId,
                     sharingInstances := st.sharingInstances,
                     selectorMapHits := st.selectorMapHits + (qb d.nodeId).length,
                     clockIdx := st.clockIdx + 2,
                     timeSlowReject := st.timeSlowReject
                       + (clock (st.clockIdx + 1) - clock st.clockIdx) }
              rw [hscan] at ih1 ih2
              simp only [List.countP_cons, isSharedOutcome, isDirectOutcome] at ih1 ih2 ⊢
              simp at ih1 ih2 ⊢
              omega

/-- Claim C4 (modelled from the spec; the traversal that actually produces
`SharedWith` outcomes is part of the crate root missing from the snapshot):
the style-sharing traversal processes every element with the spec's protocol
— on a cache hit, record `SharedWith(identity key of the other element)` and
skip selector-map matching entirely; on a miss, perform the full (timed)
selector-map query, record the direct result, then offer the element to the
cache.  Conjunct 1 flattens the state-threaded tree walk to the per-element
scan; conjuncts 2 and 3 are the two protocol branches; conjunct 4 counts one
sharing instance per `SharedWith` outcome; conjunct 5 shows the traversal
performs exactly one timed selector-map query per `Direct` outcome and none
for `SharedWith` outcomes. -/
theorem c4_style_sharing_protocol (h : Nat → Nat)
    (ts : Nat → List Nat → Option Nat) (ic : List Nat → Nat → List Nat)
    (qb : Nat → List Selector) (tp : Nat → Option Nat) (clock : Nat → Nat)
    (doc : DomNode) (depth : Nat) (st : ShareState)
    (hok : tpOkB tp doc = true) :
    shareGo h ts ic qb tp clock doc depth st
        = .ok (shareScan h ts ic qb clock (preorderElems doc) st) ∧
    (∀ st' d o, ts d.nodeId st'.cache = some o →
        shareStep h ts ic qb clock st' d
          = ({ element := Element.fromRef h d,
               selectors := .sharedWithElement (elementId h o) },
             { st' with sharingInstances := st'.sharingInstances + 1 })) ∧
    (∀ st' d, ts d.nodeId st'.cache = none →
        shareStep h ts ic qb clock st' d
          = ({ element := Element.fromRef h d,
               selectors := .selectors (qb d.nodeId) },
             { cache := ic st'.cache d.nodeId,
               sharingInstances := st'.sharingInstances,
               selectorMapHits := st'.selectorMapHits + (qb d.nodeId).length,
               clockIdx := st'.clockIdx + 2,
               timeSlowReject := st'.timeSlowReject
                 + (clock (st'.clockIdx + 1) - clock st'.clockIdx) })) ∧
    (shareScan h ts ic qb clock (preorderElems doc) st).2.sharingInstances
        = st.sharingInstances
            + ((shareScan h ts ic qb clock (preorderElems doc) st).1.countP
                isSharedOutcome) ∧
    (shareScan h ts ic qb clock (preorderElems doc) st).2.clockIdx
        = st.clockIdx
            + 2 * ((shareScan h ts ic qb clock (preorderElems doc) st).1.countP
                isDirectOutcome) :=
  ⟨shareGo_eq h ts ic qb tp clock doc depth st hok,
   fun st' d o hts => shareStep_some h ts ic qb clock st' d o hts,
   fun st' d hts => shareStep_none h ts ic qb clock st' d hts,
   (shareScan_counts h ts ic qb clock (preorderElems doc) st).1,
   (shareScan_counts h ts ic qb clock (preorderElems doc) st).2⟩

/-- Witness for C4 at a concrete document where sharing actually occurs. -/
theorem c4_style_sharing_protocol_witness :
    tpOkB tpGood docThree = true ∧
    shareGo (fun n => n) (fun _ c => c.head?) (fun c e => e :: c)
        (fun _ => [⟨"div"⟩]) tpGood (fun _ => 0) docThree 0 ShareState.init
      = .ok (shareScan (fun n => n) (fun _ c => c.head?) (fun c e => e :: c)
          (fun _ => [⟨"div"⟩]) (fun _ => 0) (preorderElems docThree)
          ShareState.init) ∧
    (shareScan (fun n => n) (fun _ c => c.head?) (fun c e => e :: c)
        (fun _ => [⟨"div"⟩]) (fun _ => 0) (preorderElems docThree)
        ShareState.init).2.sharingInstances = 2 :=
  ⟨by decide,
   (c4_style_sharing_protocol (fun n => n) (fun _ c => c.head?)
      (fun c e => e :: c) (fun _ => [⟨"div"⟩]) tpGood (fun _ => 0) docThree 0
      ShareState.init (by decide)).1,
   by decide⟩

theorem shareStep_clock (h : Nat → Nat) (ts : Nat → List Nat → Option Nat)
    (ic : List Nat → Nat → List Nat) (qb : Nat → List Selector)
    (t1 t2 : Nat → Nat) (s1 s2 : ShareState) (d : ElemData)
    (he : stEquiv s1 s2) :
    (shareStep h ts ic qb t1 s1 d).1 = (shareStep h ts ic qb t2 s2 d).1 ∧
    stEquiv (shareStep h ts ic qb t1 s1 d).2 (shareStep h ts ic qb t2 s2 d).2 := by
  obtain ⟨hc, hsi, hsm⟩ := he
  cases hts : ts d.nodeId s1.cache with
  | some o =>
      have hts2 : ts d.nodeId s2.cache = some o := by rw [← hc]; exact hts
      rw [shareStep_some h ts ic qb t1 s1 d o hts,
        shareStep_some h ts ic qb t2 s2 d o hts2]
      exact ⟨rfl, hc, by simp [hsi], hsm⟩
  | none =>
      have hts2 : ts d.nodeId s2.cache = none := by rw [← hc]; exact hts
      rw [shareStep_none h ts ic qb t1 s1 d hts,
        shareStep_none h ts ic qb t2 s2 d hts2]
      exact ⟨rfl, by rw [hc], hsi, by rw [hsm]⟩

theorem shareResEquiv_mk (em1 em2 : OwnedElementMatches)
    (c1 c2 : Except String (List OwnedElementMatches × ShareState)) :
    em1 = em2 → shareResEquiv c1 c2 →
    shareResEquiv
      (match c1 with
       | .error e => .error e
       | .ok (rest, st2) => .ok (em1 :: rest, st2))
      (match c2 with
       | .error e => .error e
       | .ok (rest, st2) => .ok (em2 :: rest, st2)) := by
  intro hem hch
  cases c1 with
  | error e1 =>
      cases c2 with
      | error e2 => exact hch
      | ok p2 => exact absurd hch (by simp [shareResEquiv])
  | ok p1 =>
      cases c2 with
      | error e2 => exact absurd hch (by simp [shareResEquiv])
      | ok p2 =>
          cases p1 with
          | mk r1 a1 =>
              cases p2 with
              | mk r2 a2 =>
                  obtain ⟨hm, hs⟩ := hch
                  refine ⟨?_, hs⟩
                  show em1 :: r1 = em2 :: r2
                  have hm' : r1 = r2 := hm
                  rw [hem, hm']

theorem shareResEquiv_append (r1 r2 : List OwnedElementMatches)
    (c1 c2 : Except String (List OwnedElementMatches × ShareState)) :
    r1 = r2 → shareResEquiv c1 c2 →
    shareResEquiv
      (match c1 with
       | .error e => .error e
       | .ok (l, st2) => .ok (r1 ++ l, st2))
      (match c2 with
       | .error e => .error e
       | .ok (l, st2) => .ok (r2 ++ l, st2)) := by
  intro hm hch
  cases c1 with
  | error e1 =>
      cases c2 with
      | error e2 => exact hch
      | ok p2 => exact absurd hch (by simp [shareResEquiv])
  | ok p1 =>
      cases c2 with
      | error e2 => exact absurd hch (by simp [shareResEquiv])
      | ok p2 =>
          cases p1 with
          | mk l1 a1 =>
              cases p2 with
              | mk l2 a2 =>
                  obtain ⟨hl, hs⟩ := hch
                  refine ⟨?_, hs⟩
                  show r1 ++ l1 = r2 ++ l2
                  have hl' : l1 = l2 := hl
                  rw [hm, hl']

mutual
theorem shareGo_clock (h : Nat → Nat) (ts : Nat → List Nat → Option Nat)
    (ic : List Nat → Nat → List Nat) (qb : Nat → List Selector)
    (tp : Nat → Option Nat) (t1 t2 : Nat → Nat) (n : DomNode) (depth : Nat)
    (s1 s2 : ShareState) (he : stEquiv s1 s2) :
    shareResEquiv (shareGo h ts ic qb tp t1 n depth s1)
      (shareGo h ts ic qb tp t2 n depth s2) := by
  cases n with
  | element d cs =>
      obtain ⟨hem, hst⟩ := shareStep_clock h ts ic qb t1 t2 s1 s2 d he
      cases h1 : shareStep h ts ic qb t1 s1 d with
      | mk em1 st1 =>
          cases h2 : shareStep h ts ic qb t2 s2 d with
          | mk em2 st2 =>
              rw [h1, h2] at hem hst
              have hch := shareChildren_clock h ts ic qb tp t1 t2 d.nodeId cs
                (depth + 1) st1 st2 hst
              simp only [shareGo, h1, h2]
              exact shareResEquiv_mk em1 em2 _ _ hem hch
  | textNode s => exact ⟨rfl, he⟩
  | comment s => exact ⟨rfl, he⟩

theorem shareChildren_clock (h : Nat → Nat) (ts : Nat → List Nat → Option Nat)
    (ic : List Nat → Nat → List Nat) (qb : Nat → List Selector)
    (tp : Nat → Option Nat) (t1 t2 : Nat → Nat) (pid : Nat)
    (l : List DomNode) (depth : Nat) (s1 s2 : ShareState)
    (he : stEquiv s1 s2) :
    shareResEquiv (shareChildren h ts ic qb tp t1 pid l depth s1)
      (shareChildren h ts ic qb tp t2 pid l depth s2) := by
  cases l with
  | nil => exact ⟨rfl, he⟩
  | cons c rest =>
      cases c with
      | element cd ccs =>
          cases htp : tp cd.nodeId with
          | none => simp [shareChildren, htp, shareResEquiv]
          | some p =>
              by_cases hp : p = pid
              · subst hp
                have hgo := shareGo_clock h ts ic qb tp t1 t2 (.element cd ccs)
                  depth s1 s2 he
                simp only [shareChildren, htp, if_pos rfl]
                cases hg1 : shareGo h ts ic qb tp t1 (.element cd ccs) depth s1 with
                | error e1 =>
                    cases hg2 : shareGo h ts ic qb tp t2 (.element cd ccs) depth s2 with
                    | error e2 =>
                        rw [hg1, hg2] at hgo
                        exact hgo
                    | ok p2 =>
                        rw [hg1, hg2] at hgo
                        exact absurd hgo (by simp [shareResEquiv])
                | ok p1 =>
                    cases hg2 : shareGo h ts ic qb tp t2 (.element cd ccs) depth s2 with
                    | error e2 =>
                        rw [hg1, hg2] at hgo
                        exact absurd hgo (by simp [shareResEquiv])
                    | ok p2 =>
                        rw [hg1, hg2] at hgo
                        obtain ⟨hm, hs⟩ := hgo
                        cases p1 with
                        | mk r1 a1 =>
                            cases p2 with
                            | mk r2 a2 =>
                                have hch := shareChildren_clock h ts ic qb tp
                                  t1 t2 p rest depth a1 a2 hs
                                exact shareResEquiv_append r1 r2 _ _ hm hch
              · simp [shareChildren, htp, hp, shareResEquiv]
      | textNode s =>
          simp only [shareChildren]
          exact shareChildren_clock h ts ic qb tp t1 t2 pid rest depth s1 s2 he
      | comment s =>
          simp only [shareChildren]
          exact shareChildren_clock h ts ic qb tp t1 t2 pid rest depth s1 s2 he
end

/-- Claim C5 (modelled from the spec; the instrumented runner and its
`Statistics` are part of the crate root missing from the snapshot): for a
fixed (document, strategy) pair the traversal is deterministic — two runs of
the style-sharing strategy under arbitrary (different) wall clocks produce
identical `DocumentMatches` and identical `Statistics` once the wall-clock
duration field is nulled out, exactly the comparison `statistics_dont_change`
performs; in particular all count-based fields and the `Some`/`None` shape of
every field are reproducible.  The naive, selector-map and bloom-filter runs
are clock-free functions of their inputs, so their determinism is definitional
and included implicitly. -/
theorem c5_determinism (h : Nat → Nat) (ts : Nat → List Nat → Option Nat)
    (ic : List Nat → Nat → List Nat) (qb : Nat → List Selector)
    (tp : Nat → Option Nat) (t1 t2 : Nat → Nat) (doc : DomNode) :
    Except.map (fun p => (p.1, p.2.dropTimes))
        (matchSelectorsWithStyleSharing h ts ic qb tp t1 doc)
      = Except.map (fun p => (p.1, p.2.dropTimes))
        (matchSelectorsWithStyleSharing h ts ic qb tp t2 doc) := by
  have hmain := shareGo_clock h ts ic qb tp t1 t2 doc 0 ShareState.init
    ShareState.init ⟨rfl, rfl, rfl⟩
  cases h1 : shareGo h ts ic qb tp t1 doc 0 ShareState.init with
  | error e1 =>
      cases h2 : shareGo h ts ic qb tp t2 doc 0 ShareState.init with
      | error e2 =>
          rw [h1, h2] at hmain
          have he : e1 = e2 := hmain
          rw [matchSelectorsWithStyleSharing, matchSelectorsWithStyleSharing,
            h1, h2, he]
      | ok p2 =>
          rw [h1, h2] at hmain
          exact absurd hmain (by simp [shareResEquiv])
  | ok p1 =>
      cases h2 : shareGo h ts ic qb tp t2 doc 0 ShareState.init with
      | error e2 =>
          rw [h1, h2] at hmain
          exact absurd hmain (by simp [shareResEquiv])
      | ok p2 =>
          rw [h1, h2] at hmain
          obtain ⟨hm, hcache, hsi, hsm⟩ := hmain
          cases p1 with
          | mk r1 a1 =>
              cases p2 with
              | mk r2 a2 =>
                  rw [matchSelectorsWithStyleSharing,
                    matchSelectorsWithStyleSharing, h1, h2]
                  have hm' : r1 = r2 := hm
                  have hsi' : a1.sharingInstances = a2.sharingInstances := hsi
                  have hsm' : a1.selectorMapHits = a2.selectorMapHits := hsm
                  simp [Except.map, Statistics.dropTimes, hm', hsi', hsm']

theorem fromOwned_get?_none (L : List OwnedElementMatches) (k : Nat)
    (hk : ∀ em ∈ L, em.element.id ≠ k) :
    (SetDocumentMatches.fromOwned L).get? k = none := by
  induction L with
  | nil => rfl
  | cons em rest ih =>
      have h1 : (em.element.id == k) = false := by
        simp [hk em (by simp)]
      have ih' := ih (fun e he => hk e (by simp [he]))
      simp only [SetDocumentMatches.fromOwned, SetDocumentMatches.get?,
        List.map_cons, List.find?_cons, h1] at ih' ⊢
      exact ih'

theorem fromOwned_get?_mem (L : List OwnedElementMatches) (k : Nat)
    (hnd : (L.map (·.element.id)).Nodup) (em : OwnedElementMatches)
    (hmem : em ∈ L) (hk : em.element.id = k) :
    (SetDocumentMatches.fromOwned L).get? k
      = some { element := em.element, selectors := setOutcome em.selectors } := by
  induction L with
  | nil => cases hmem
  | cons e0 rest ih =>
      rcases List.mem_cons.mp hmem with rfl | hmem'
      · simp [SetDocumentMatches.fromOwned, SetDocumentMatches.get?,
          List.find?_cons, hk]
      · rw [List.map_cons] at hnd
        have hcons := List.nodup_cons.mp hnd
        have hne : (e0.element.id == k) = false := by
          simp only [beq_eq_false_iff_ne, ne_eq]
          intro hek
          apply hcons.1
          rw [hek, ← hk]
          exact List.mem_map_of_mem _ hmem'
        have ih' := ih hcons.2 hmem'
        simp only [SetDocumentMatches.fromOwned, SetDocumentMatches.get?,
          List.map_cons, List.find?_cons, hne] at ih' ⊢
        exact ih'

theorem shareScan_outcome_invariant (h : Nat → Nat)
    (ts : Nat → List Nat → Option Nat) (ic : List Nat → Nat → List Nat)
    (qb : Nat → List Selector) (clock : Nat → Nat)
    (Hts : ∀ e c o, ts e c = some o → o ∈ c)
    (Hic : ∀ c e x, x ∈ ic c e → x ∈ c ∨ x = e) :
    ∀ (ds : List ElemData) (st : ShareState) (done : List OwnedElementMatches),
    cacheSupported h qb done st.cache →
    ∀ i em, ((shareScan h ts ic qb clock ds st).1)[i]? = some em →
      ∃ d, ds[i]? = some d ∧ em.element = Element.fromRef h d ∧
        (em.selectors = .selectors (qb d.nodeId)
         ∨ ∃ o c, ts d.nodeId c = some o ∧
             em.selectors = .sharedWithElement (elementId h o) ∧
             ∃ em' ∈ done ++ ((shareScan h ts ic qb clock ds st).1).take i,
               em'.element.id = elementId h o ∧
               em'.selectors = .selectors (qb o)) := by
  intro ds
  induction ds with
  | nil =>
      intro st done hsup i em hem
      simp [shareScan] at hem
  | cons d rest ih =>
      intro st done hsup i em hem
      cases hts : ts d.nodeId st.cache with
      | some o =>
          simp only [shareScan, shareStep_some h ts ic qb clock st d o hts]
            at hem ⊢
          cases hscan : shareScan h ts ic qb clock rest
              { st with sharingInstances := st.sharingInstances + 1 } with
          | mk r2 s2 =>
              rw [hscan] at hem
              cases i with
              | zero =>
                  simp only [List.getElem?_cons_zero, Option.some.injEq] at hem
                  subst hem
                  refine ⟨d, by simp, rfl, Or.inr ⟨o, st.cache, hts, rfl, ?_⟩⟩
                  obtain ⟨em', hmem', hid, hsel⟩ := hsup o (Hts _ _ _ hts)
                  exact ⟨em', by simp [hmem'], hid, hsel⟩
              | succ i' =>
                  simp only [List.getElem?_cons_succ] at hem
                  have hsup' : cacheSupported h qb
                      (done ++ [{ element := Element.fromRef h d,
                                  selectors :=
                                    .sharedWithElement (elementId h o) }])
                      ({ st with
                          sharingInstances := st.sharingInstances + 1 } :
                        ShareState).cache := by
                    intro x hx
                    obtain ⟨em', hmem', hid, hsel⟩ := hsup x hx
                    exact ⟨em', List.mem_append_left _ hmem', hid, hsel⟩
                  have := ih _ _ hsup' i' em (by rw [hscan]; exact hem)
                  obtain ⟨d', hd', helem, hdisj⟩ := this
                  refine ⟨d', by simpa using hd', helem, ?_⟩
                  rcases hdisj with hdir | ⟨o', c', hts', hsel', em', hmem', hid', hqb'⟩
                  · exact Or.inl hdir
                  · refine Or.inr ⟨o', c', hts', hsel', em', ?_, hid', hqb'⟩
                    rw [hscan] at hmem'
                    simp only [List.take_succ_cons]
                    simp only [List.append_assoc, List.singleton_append] at hmem'
                    exact hmem'
      | none =>
          simp only [shareScan, shareStep_none h ts ic qb clock st d hts]
            at hem ⊢
          cases hscan : shareScan h ts ic qb clock rest
              { cache := ic st.cache d.nodeId,
                sharingInstances := st.sharingInstances,
                selectorMapHits := st.selectorMapHits + (qb d.nodeId).length,
                clockIdx := st.clockIdx + 2,
                timeSlowReject := st.timeSlowReject
                  + (clock (st.clockIdx + 1) - clock st.clockIdx) } with
          | mk r2 s2 =>
              rw [hscan] at hem
              cases i with
              | zero =>
                  simp only [List.getElem?_cons_zero, Option.some.injEq] at hem
                  subst hem
                  exact ⟨d, by simp, rfl, Or.inl rfl⟩
              | succ i' =>
                  simp only [List.getElem?_cons_succ] at hem
                  have hsup' : cacheSupported h qb
                      (done ++ [{ element := Element.fromRef h d,
                                  selectors := .selectors (qb d.nodeId) }])
                      (ic st.cache d.nodeId) := by
                    intro x hx
                    rcases Hic _ _ _ hx with hxc | rfl
                    · obtain ⟨em', hmem', hid, hsel⟩ := hsup x hxc
                      exact ⟨em', List.mem_append_left _ hmem', hid, hsel⟩
                    · refine ⟨{ element := Element.fromRef h d,
                                selectors := .selectors (qb d.nodeId) },
                        List.mem_append_right _ (by simp), ?_, rfl⟩
                      rfl
                  have := ih _ _ hsup' i' em (by rw [hscan]; exact hem)
                  obtain ⟨d', hd', helem, hdisj⟩ := this
                  refine ⟨d', by simpa using hd', helem, ?_⟩
                  rcases hdisj with hdir | ⟨o', c', hts', hsel', em', hmem', hid', hqb'⟩
                  · exact Or.inl hdir
                  · refine Or.inr ⟨o', c', hts', hsel', em', ?_, hid', hqb'⟩
                    rw [hscan] at hmem'
                    simp only [List.take_succ_cons]
                    simp only [List.append_assoc, List.singleton_append] at hmem'
                    exact hmem'

theorem shareScan_keys (h : Nat → Nat) (ts : Nat → List Nat → Option Nat)
    (ic : List Nat → Nat → List Nat) (qb : Nat → List Selector)
    (clock : Nat → Nat) (ds : List ElemData) (st : ShareState) :
    ((shareScan h ts ic qb clock ds st).1).map (fun em => em.element.id)
      = ds.map (fun d => elementId h d.nodeId) := by
  have h1 := congrArg (List.map (fun e : Element => e.id))
    (shareScan_elements h ts ic qb clock ds st)
  simpa [List.map_map, Function.comp, Element.fromRef] using h1

theorem nodup_key_take_ne (L : List OwnedElementMatches)
    (hnd : (L.map (fun em => em.element.id)).Nodup) (i : Nat)
    (em : OwnedElementMatches) (hem : L[i]? = some em)
    (em' : OwnedElementMatches) (hmem : em' ∈ L.take i) :
    em'.element.id ≠ em.element.id := by
  have hsplit : L.take i ++ L.drop i = L := List.take_append_drop i L
  have hnd' : ((L.take i ++ L.drop i).map (fun em => em.element.id)).Nodup := by
    rw [hsplit]; exact hnd
  rw [List.map_append] at hnd'
  have hdisj := (List.nodup_append.mp hnd').2.2
  have hmemd : em ∈ L.drop i := by
    apply List.getElem?_mem (n := 0)
    rw [List.getElem?_drop]
    simpa using hem
  intro heq
  exact hdisj (List.mem_map_of_mem _ hmem)
    (by rw [heq]; exact List.mem_map_of_mem _ hmemd)

theorem findSelectors_of_get?_direct (s : SetDocumentMatches) (k : Nat)
    (e : Element) (set : Finset String)
    (hget : s.get? k = some { element := e, selectors := .selectors set })
    (fuel : Nat) :
    s.findSelectors fuel k = some set := by
  rw [SetDocumentMatches.findSelectors, hget]

theorem findSelectors_of_get?_shared (s : SetDocumentMatches) (k j : Nat)
    (e : Element) (hget : s.get? k
      = some { element := e, selectors := .sharedWithElement j })
    (fuel : Nat) :
    s.findSelectors (fuel + 1) k = s.findSelectors fuel j := by
  rw [SetDocumentMatches.findSelectors, hget]

/-- Claim C7 (the style-sharing traversal is modelled from the spec, the
resolver `find_selectors` from `structs.rs`): in a successfully produced
result sequence, every `SharedWith` reference points to a strictly earlier
entry (an entry of the prefix before the referring position) that holds a
direct selector collection; the reference is never to the referring entry
itself; the referring entry is never first; and `find_selectors` resolves the
referring entry's key within fuel equal to the number of elements visited
before it. -/
theorem c7_shared_refs_earlier (h : Nat → Nat)
    (ts : Nat → List Nat → Option Nat) (ic : List Nat → Nat → List Nat)
    (qb : Nat → List Selector) (tp : Nat → Option Nat) (clock : Nat → Nat)
    (doc : DomNode)
    (Hts : ∀ e c o, ts e c = some o → o ∈ c)
    (Hic : ∀ c e x, x ∈ ic c e → x ∈ c ∨ x = e)
    (Hkeys : ((preorderElems doc).map (fun d => elementId h d.nodeId)).Nodup)
    (hok : tpOkB tp doc = true) :
    ∀ ms stats,
      matchSelectorsWithStyleSharing h ts ic qb tp clock doc = .ok (ms, stats) →
      ∀ i em j, ms[i]? = some em → em.selectors = .sharedWithElement j →
        (∃ em' ∈ ms.take i, em'.element.id = j ∧
            ∃ l, em'.selectors = .selectors l) ∧
        j ≠ em.element.id ∧ 1 ≤ i ∧
        ∃ s, (SetDocumentMatches.fromOwned ms).findSelectors i em.element.id
              = some s := by
  intro ms stats hrun i em j hem hsel
  cases hscan : shareScan h ts ic qb clock (preorderElems doc) ShareState.init with
  | mk r fin =>
      rw [matchSelectorsWithStyleSharing,
        shareGo_eq h ts ic qb tp clock doc 0 ShareState.init hok, hscan] at hrun
      simp only [Except.ok.injEq, Prod.mk.injEq] at hrun
      obtain ⟨hms, -⟩ := hrun
      subst hms
      have hr1 : (shareScan h ts ic qb clock (preorderElems doc)
          ShareState.init).1 = r := by rw [hscan]
      have hkeysms : (r.map (fun em => em.element.id)).Nodup := by
        rw [← hr1, shareScan_keys]
        exact Hkeys
      have hinv := shareScan_outcome_invariant h ts ic qb clock Hts Hic
        (preorderElems doc) ShareState.init [] (by intro o ho; cases ho)
        i em (by rw [hr1]; exact hem)
      rw [hr1] at hinv
      obtain ⟨d, -, helem, hdisj⟩ := hinv
      rcases hdisj with hdir | ⟨o, c, -, hselShared, em', hmem', hid', hqb'⟩
      · rw [hsel] at hdir
        cases hdir
      · rw [hsel] at hselShared
        have hj : j = elementId h o := by
          injection hselShared
        have hmem'' : em' ∈ r.take i := by simpa using hmem'
        have hne := nodup_key_take_ne r hkeysms i em hem em' hmem''
        have hi1 : 1 ≤ i := by
          cases i with
          | zero => simp at hmem''
          | succ i' => exact Nat.succ_le_succ (Nat.zero_le _)
        refine ⟨⟨em', hmem'', by rw [hj]; exact hid', ⟨qb o, hqb'⟩⟩, ?_, hi1, ?_⟩
        · rw [hj, ← hid']
          exact hne
        · obtain ⟨i', rfl⟩ : ∃ i', i = i' + 1 := by
            cases i with
            | zero => cases hi1
            | succ i' => exact ⟨i', rfl⟩
          have hget1 : (SetDocumentMatches.fromOwned r).get? em.element.id
              = some { element := em.element,
                       selectors := setOutcome em.selectors } :=
            fromOwned_get?_mem r _ hkeysms em (List.getElem?_mem hem) rfl
          have hget1' : (SetDocumentMatches.fromOwned r).get? em.element.id
              = some { element := em.element,
                       selectors := .sharedWithElement j } := by
            rw [hget1, hsel]
            rfl
          have hstep1 := findSelectors_of_get?_shared
            (SetDocumentMatches.fromOwned r) em.element.id j em.element
            hget1' i'
          have hget2 : (SetDocumentMatches.fromOwned r).get? j
              = some { element := em'.element,
                       selectors := setOutcome em'.selectors } :=
            fromOwned_get?_mem r _ hkeysms em'
              (List.take_subset _ _ hmem'') (by rw [hj]; exact hid')
          have hget2' : (SetDocumentMatches.fromOwned r).get? j
              = some { element := em'.element,
                       selectors := .selectors (selTexts (qb o)) } := by
            rw [hget2, hqb']
            rfl
          refine ⟨selTexts (qb o), ?_⟩
          rw [hstep1]
          exact findSelectors_of_get?_direct _ _ _ _ hget2' i'

/-- Witness for C7 at a concrete run in which the second and third elements
share with the first. -/
theorem c7_shared_refs_earlier_witness :
    (∃ em' ∈ ([{ element := ⟨1, "<html>"⟩, selectors := .selectors [⟨"div"⟩] },
        { element := ⟨2, "<div>"⟩, selectors := .sharedWithElement 1 },
        { element := ⟨3, "<div>"⟩, selectors := .sharedWithElement 1 }] :
          List OwnedElementMatches).take 1,
        em'.element.id = 1 ∧ ∃ l, em'.selectors = .selectors l) ∧
    (1 : Nat) ≠ 2 ∧ (1 : Nat) ≤ 1 ∧
    ∃ s, (SetDocumentMatches.fromOwned
        [{ element := ⟨1, "<html>"⟩, selectors := .selectors [⟨"div"⟩] },
         { element := ⟨2, "<div>"⟩, selectors := .sharedWithElement 1 },
         { element := ⟨3, "<div>"⟩, selectors := .sharedWithElement 1 }]).findSelectors 1 2
      = some s :=
  c7_shared_refs_earlier (fun n => n) (fun _ c => c.head?) (fun c e => e :: c)
    (fun _ => [⟨"div"⟩]) tpGood (fun _ => 0) docThree
    (by
      intro e c o hh
      cases c with
      | nil => cases hh
      | cons a l =>
          simp at hh
          simp [hh])
    (by
      intro c e x hx
      rcases List.mem_cons.mp hx with h1 | h1
      · exact Or.inr h1
      · exact Or.inl h1)
    (by decide) (by decide)
    [{ element := ⟨1, "<html>"⟩, selectors := .selectors [⟨"div"⟩] },
     { element := ⟨2, "<div>"⟩, selectors := .sharedWithElement 1 },
     { element := ⟨3, "<div>"⟩, selectors := .sharedWithElement 1 }]
    { sharing_instances := some 2, selector_map_hits := some 1,
      fast_rejects := none, slow_rejects := none,
      time_spent_slow_rejecting := some 0 }
    (by rfl) 1
    { element := ⟨2, "<div>"⟩, selectors := .sharedWithElement 1 } 1
    (by rfl) rfl

theorem findSelectors_of_get?_none (s : SetDocumentMatches) (k : Nat)
    (hget : s.get? k = none) (fuel : Nat) :
    s.findSelectors fuel k = none := by
  rw [SetDocumentMatches.findSelectors, hget]

theorem fromOwned_map_congr (h : Nat → Nat) (f g : ElemData → List Selector)
    (ds : List ElemData)
    (hfg : ∀ d ∈ ds, selTexts (f d) = selTexts (g d)) :
    SetDocumentMatches.fromOwned (ds.map (fun d =>
        { element := Element.fromRef h d, selectors := .selectors (f d) }))
      = SetDocumentMatches.fromOwned (ds.map (fun d =>
        { element := Element.fromRef h d, selectors := .selectors (g d) })) := by
  simp only [SetDocumentMatches.fromOwned, List.map_map,
    SetDocumentMatches.mk.injEq]
  apply List.map_congr_left
  intro d hd
  simp [Function.comp, setOutcome, hfg d hd]

theorem fromOwned_map_get? (h : Nat → Nat) (f : ElemData → List Selector)
    (ds : List ElemData) (d : ElemData) (hd : d ∈ ds)
    (hnd : (ds.map (fun d => elementId h d.nodeId)).Nodup) :
    (SetDocumentMatches.fromOwned (ds.map (fun d =>
        { element := Element.fromRef h d,
          selectors := .selectors (f d) }))).get? (elementId h d.nodeId)
      = some { element := Element.fromRef h d,
               selectors := .selectors (selTexts (f d)) } := by
  have hkeys : ((ds.map (fun d =>
      ({ element := Element.fromRef h d,
         selectors := .selectors (f d) } : OwnedElementMatches))).map
      (fun em => em.element.id)).Nodup := by
    simpa [List.map_map, Function.comp, Element.fromRef] using hnd
  have hres := fromOwned_get?_mem _ (elementId h d.nodeId) hkeys
    { element := Element.fromRef h d, selectors := .selectors (f d) }
    (List.mem_map_of_mem _ hd) rfl
  simpa [setOutcome] using hres

theorem sharing_canonical_eq_naive (h : Nat → Nat) (sel : List Selector)
    (m : Selector → Nat → Bool) (qb : Nat → List Selector)
    (ts : Nat → List Nat → Option Nat) (ic : List Nat → Nat → List Nat)
    (clock : Nat → Nat) (ds : List ElemData)
    (Hkeys : (ds.map (fun d => elementId h d.nodeId)).Nodup)
    (Hb : ∀ d ∈ ds, selTexts (qb d.nodeId)
        = selTexts (sel.filter (fun s => m s d.nodeId)))
    (Hts : ∀ e c o, ts e c = some o → o ∈ c)
    (Hic : ∀ c e x, x ∈ ic c e → x ∈ c ∨ x = e)
    (Hshare : ∀ e c o, ts e c = some o → selTexts (qb o) = selTexts (qb e)) :
    ∀ k, (SetDocumentMatches.fromOwned
            (shareScan h ts ic qb clock ds ShareState.init).1).findSelectors
          ds.length k
      = (SetDocumentMatches.fromOwned (ds.map (fun d =>
            { element := Element.fromRef h d,
              selectors :=
                .selectors (sel.filter (fun s => m s d.nodeId)) }))).findSelectors
          ds.length k := by
  intro k
  by_cases hkmem : k ∈ ds.map (fun d => elementId h d.nodeId)
  · -- k is the identity key of some element; locate its index
    obtain ⟨i, hik⟩ := List.mem_iff_getElem?.mp hkmem
    rw [List.getElem?_map] at hik
    cases hdsi : ds[i]? with
    | none => rw [hdsi] at hik; cases hik
    | some d =>
        rw [hdsi] at hik
        simp at hik
        have hdmem : d ∈ ds := List.getElem?_mem hdsi
        -- the right-hand side resolves to the naive selector-text set of d
        have hgetN := fromOwned_map_get? h
          (fun d => sel.filter (fun s => m s d.nodeId)) ds d hdmem Hkeys
        rw [← hik]
        rw [findSelectors_of_get?_direct _ _ _ _ hgetN]
        -- the left-hand side: fetch the scan entry at index i
        have hlen : (shareScan h ts ic qb clock ds ShareState.init).1.length
            = ds.length := by
          have := congrArg List.length
            (shareScan_elements h ts ic qb clock ds ShareState.init)
          simpa using this
        have hkeysL : ((shareScan h ts ic qb clock ds
            ShareState.init).1.map (fun em => em.element.id)).Nodup := by
          rw [shareScan_keys]; exact Hkeys
        cases hLem : (shareScan h ts ic qb clock ds ShareState.init).1[i]? with
        | none =>
            exfalso
            have hge := List.getElem?_eq_none_iff.mp hLem
            have hlt : i < ds.length := (List.getElem?_eq_some_iff.mp hdsi).1
            omega
        | some em =>
            obtain ⟨d', hd', helem, hdisj⟩ := shareScan_outcome_invariant
              h ts ic qb clock Hts Hic ds ShareState.init []
              (by intro o ho; cases ho) i em hLem
            rw [hdsi] at hd'
            have hdd : d' = d := by
              have := hd'
              simp at this
              exact this.symm
            subst hdd
            have hemmem : em ∈ (shareScan h ts ic qb clock ds
                ShareState.init).1 := List.getElem?_mem hLem
            have hemid : em.element.id = elementId h d'.nodeId := by
              rw [helem]; rfl
            rcases hdisj with hdir | ⟨o, c, hts', hselSh, em', hmem', hid', hqb'⟩
            · -- direct entry: both sides are the (equal) text sets
              have hgetL := fromOwned_get?_mem _ (elementId h d'.nodeId)
                hkeysL em hemmem hemid
              rw [hdir] at hgetL
              rw [findSelectors_of_get?_direct _ _ _ _ (by
                simpa [setOutcome] using hgetL)]
              rw [Hb d' hdmem]
            · -- shared entry: dereference once to the supporting direct entry
              obtain ⟨F', hF⟩ : ∃ F', ds.length = F' + 1 := by
                have hlt : i < ds.length := (List.getElem?_eq_some_iff.mp hdsi).1
                cases hdsl : ds.length with
                | zero => omega
                | succ n => exact ⟨n, rfl⟩
              have hgetL := fromOwned_get?_mem _ (elementId h d'.nodeId)
                hkeysL em hemmem hemid
              rw [hselSh] at hgetL
              have hgetL' : (SetDocumentMatches.fromOwned
                  (shareScan h ts ic qb clock ds ShareState.init).1).get?
                  (elementId h d'.nodeId)
                  = some { element := em.element,
                           selectors := .sharedWithElement (elementId h o) } := by
                simpa [setOutcome] using hgetL
              rw [hF, findSelectors_of_get?_shared _ _ _ _ hgetL' F']
              have hmem'' : em' ∈ (shareScan h ts ic qb clock ds
                  ShareState.init).1 := by
                apply List.take_subset i
                simpa using hmem'
              have hgetL2 := fromOwned_get?_mem _ (elementId h o) hkeysL em'
                hmem'' hid'
              rw [hqb'] at hgetL2
              rw [findSelectors_of_get?_direct _ _ _ _ (by
                simpa [setOutcome] using hgetL2)]
              rw [Hshare _ _ _ hts', Hb d' hdmem]
  · -- k is no element's key: both lookups miss
    have hL : ∀ em ∈ (shareScan h ts ic qb clock ds ShareState.init).1,
        em.element.id ≠ k := by
      intro em hm hkk
      apply hkmem
      rw [← shareScan_keys h ts ic qb clock ds ShareState.init]
      rw [← hkk]
      exact List.mem_map_of_mem _ hm
    have hN : ∀ em ∈ ds.map (fun d =>
        ({ element := Element.fromRef h d,
           selectors :=
             .selectors (sel.filter (fun s => m s d.nodeId)) } :
          OwnedElementMatches)), em.element.id ≠ k := by
      intro em hm hkk
      apply hkmem
      obtain ⟨d, hd, rfl⟩ := List.mem_map.mp hm
      rw [← hkk]
      exact List.mem_map_of_mem _ hd
    rw [findSelectors_of_get?_none _ _ (fromOwned_get?_none _ _ hL),
      findSelectors_of_get?_none _ _ (fromOwned_get?_none _ _ hN)]

/-- Claim C1: cross-strategy equivalence.  Given the external selector
engine's contracts — the indexed rule-map query and the bloom-filter query
return the same selector-text sets as the naive scan (`Hq`, `Hb`), the
style-sharing oracle only returns cached (already-matched) elements (`Hts`),
judges elements interchangeable only when their match sets coincide
(`Hshare`), the cache only accumulates offered elements (`Hic`), identity
keys are injective on the document (`Hkeys`, the spec's key invariant), and
the adapter reports parents consistently (`hok`) — every optimized strategy's
canonicalized result (identity key resolved through `SharedWith` references
to a selector-text set by `find_selectors`) agrees with the canonicalized
naive result on every identity key. -/
theorem c1_cross_strategy_equivalence (h : Nat → Nat) (sel : List Selector)
    (m : Selector → Nat → Bool) (qm qb : Nat → List Selector)
    (tp : Nat → Option Nat) (ts : Nat → List Nat → Option Nat)
    (ic : List Nat → Nat → List Nat) (clock : Nat → Nat) (doc : DomNode)
    (Hkeys : ((preorderElems doc).map (fun d => elementId h d.nodeId)).Nodup)
    (Hq : ∀ d ∈ preorderElems doc,
        selTexts (qm d.nodeId) = selTexts (sel.filter (fun s => m s d.nodeId)))
    (Hb : ∀ d ∈ preorderElems doc,
        selTexts (qb d.nodeId) = selTexts (sel.filter (fun s => m s d.nodeId)))
    (Hts : ∀ e c o, ts e c = some o → o ∈ c)
    (Hic : ∀ c e x, x ∈ ic c e → x ∈ c ∨ x = e)
    (Hshare : ∀ e c o, ts e c = some o → selTexts (qb o) = selTexts (qb e))
    (hok : tpOkB tp doc = true) :
    (∀ k, (SetDocumentMatches.fromOwned
          (matchSelectorsWithSelectorMap h qm doc)).findSelectors
            (preorderElems doc).length k
        = (SetDocumentMatches.fromOwned
            (matchSelectors h sel m doc)).findSelectors
            (preorderElems doc).length k) ∧
    (∃ r, matchSelectorsWithBloomFilter h qb tp doc = .ok r ∧
      ∀ k, (SetDocumentMatches.fromOwned r).findSelectors
            (preorderElems doc).length k
        = (SetDocumentMatches.fromOwned
            (matchSelectors h sel m doc)).findSelectors
            (preorderElems doc).length k) ∧
    (∃ ms stats,
      matchSelectorsWithStyleSharing h ts ic qb tp clock doc = .ok (ms, stats) ∧
      ∀ k, (SetDocumentMatches.fromOwned ms).findSelectors
            (preorderElems doc).length k
        = (SetDocumentMatches.fromOwned
            (matchSelectors h sel m doc)).findSelectors
            (preorderElems doc).length k) := by
  refine ⟨?_, ?_, ?_⟩
  · intro k
    rw [matchSelectorsWithSelectorMap, selectorMapGo_eq, matchSelectors,
      matchSelectorsGo_eq,
      fromOwned_map_congr h (fun d => qm d.nodeId)
        (fun d => sel.filter (fun s => m s d.nodeId)) (preorderElems doc) Hq]
  · refine ⟨_, bloomGo_eq h qb tp doc 0 hok, ?_⟩
    intro k
    rw [matchSelectors, matchSelectorsGo_eq,
      fromOwned_map_congr h (fun d => qb d.nodeId)
        (fun d => sel.filter (fun s => m s d.nodeId)) (preorderElems doc) Hb]
  · cases hscan : shareScan h ts ic qb clock (preorderElems doc)
        ShareState.init with
    | mk r fin =>
        refine ⟨r, { sharing_instances := some fin.sharingInstances,
                     selector_map_hits := some fin.selectorMapHits,
                     fast_rejects := none, slow_rejects := none,
                     time_spent_slow_rejecting := some fin.timeSlowReject },
          ?_, ?_⟩
        · rw [matchSelectorsWithStyleSharing,
            shareGo_eq h ts ic qb tp clock doc 0 ShareState.init hok, hscan]
        · intro k
          have hmain := sharing_canonical_eq_naive h sel m qb ts ic clock
            (preorderElems doc) Hkeys Hb Hts Hic Hshare k
          rw [hscan] at hmain
          rw [matchSelectors, matchSelectorsGo_eq]
          exact hmain

/-- Witness for C1 at a concrete document and concrete engine oracles. -/
theorem c1_cross_strategy_equivalence_witness :
    (SetDocumentMatches.fromOwned
        (matchSelectorsWithSelectorMap (fun n => n) (fun _ => [⟨"div"⟩])
          docThree)).findSelectors (preorderElems docThree).length 1
      = (SetDocumentMatches.fromOwned
          (matchSelectors (fun n => n) [⟨"div"⟩] (fun _ _ => true)
            docThree)).findSelectors (preorderElems docThree).length 1 :=
  (c1_cross_strategy_equivalence (fun n => n) [⟨"div"⟩] (fun _ _ => true)
    (fun _ => [⟨"div"⟩]) (fun _ => [⟨"div"⟩]) tpGood (fun _ c => c.head?)
    (fun c e => e :: c) (fun _ => 0) docThree
    (by decide) (by decide) (by decide)
    (by
      intro e c o hh
      cases c with
      | nil => cases hh
      | cons a l =>
          simp at hh
          simp [hh])
    (by
      intro c e x hx
      rcases List.mem_cons.mp hx with h1 | h1
      · exact Or.inr h1
      · exact Or.inl h1)
    (fun _ _ _ _ => rfl) (by decide)).1 1
